import Mathlib

/-!
Verification of the react-static-render incremental build pipeline.

Each definition in this file is a shallow embedding of a function of the
repository: the render scheduler (`Renderer.renderFiles` and its
`chunkArray` helper, `renderWithConcurrency`), the per-task render
executor (`Renderer.renderFile` / `renderFile`), the CLI render action's
exit behaviour, the dependency-graph builder of `FileWatcher`
(`buildDependencyGraph` / `addDependencies`), the watcher's change
classification (`handleFileChange`, `getAffectedEntryPoints`) and the
template-merge algorithm (`mergeLiquidTemplate`, `mergeHTMLTemplate`,
`escapeRegex`).  JavaScript `Map`s and `Set`s are modelled as association
lists of deduplicated lists, promises as explicit traces or result
values, and subprocess outcomes as an inductive type of the events the
code actually inspects.
-/

namespace StaticRender

/-! ## Render results

`RenderResult<string>` from `types.ts`: either `{success: true, data,
outputPath}` or `{success: false, error: RenderError}` where the error
carries a code, a message and an optional file path. -/

inductive RenderResult where
  | ok (outputPath : String)
  | fail (code : String) (message : String) (filePath : Option String)
deriving DecidableEq, Repr

def RenderResult.isSuccess : RenderResult → Bool
  | .ok _ => true
  | .fail _ _ _ => false

/-! ## Render executor: `Renderer.renderFile` (render.ts, old generation)

The renderer spawns a worker process and settles the returned promise
from exactly one of the events the code subscribes to on the child
process: a `close` event carrying `(code, signal)` or an `error` event
(spawn failure).  `ProcessEvent` is that observation. -/

inductive ProcessEvent where
  | close (code : Option Int) (signal : Option String)
  | errorEvent (message : String)
deriving DecidableEq, Repr

/-- `path.join(outputDir, filePath)` as used by `handleProcessResult`;
the repository always joins a directory with a relative file path, which
is concatenation with a separator. -/
def joinPath (dir file : String) : String := dir ++ "/" ++ file

/-- `Renderer.renderFile` via `handleProcessResult` (render.ts): on
`close` with exit code 0 it resolves with a success result carrying the
output path; on `close` with any other code (or a signal kill, where
`code` is null) it resolves with a `PROCESS_EXIT_ERROR` failure; on an
`error` event it resolves with a `PROCESS_SPAWN_ERROR` failure.  The
promise is always resolved, never rejected. -/
def rendererRenderFile (outputDir filePath : String) : ProcessEvent → RenderResult
  | .close code _signal =>
      if code = some 0 then
        .ok (joinPath outputDir filePath)
      else
        .fail "PROCESS_EXIT_ERROR" "Render process exited with non-zero code" (some filePath)
  | .errorEvent _m =>
      .fail "PROCESS_SPAWN_ERROR" "Failed to spawn render process" (some filePath)

/-! ## Render scheduler: `Renderer.renderFiles` and `chunkArray`

`chunkArray` slices the task list into consecutive chunks of at most
`size` elements (`array.slice(i, i + size)` for `i = 0, size, 2*size,
...`).  The JavaScript loop terminates because `size ≥ 1` (the Joi
schema enforces `min(1)`, and `maxConcurrentRenders || 4` replaces the
falsy values `undefined`/`0`); the Lean embedding uses the list length
as fuel, which never runs out when `size ≥ 1`. -/

def chunkGo (size : Nat) : Nat → List α → List (List α)
  | 0, _ => []
  | _ + 1, [] => []
  | fuel + 1, x :: xs => (x :: xs).take size :: chunkGo size fuel ((x :: xs).drop size)

def chunkArray (xs : List α) (size : Nat) : List (List α) :=
  chunkGo size xs.length xs

/-- `this.config.maxConcurrentRenders || 4` — JavaScript `||` replaces
the falsy values `undefined` and `0` with the default 4. -/
def rendererLimit (maxConcurrentRenders : Option Nat) : Nat :=
  match maxConcurrentRenders with
  | none => 4
  | some k => if k = 0 then 4 else k

/-- `Renderer.renderFiles`: an empty batch short-circuits to `[]`;
otherwise the task list is chunked by the concurrency limit and every
chunk is awaited in full (`Promise.all`) before the next chunk starts,
the per-chunk results being appended in order.  The per-task behaviour
is abstracted as `f`, one outcome per task. -/
def renderFiles (f : String → RenderResult) (maxConcurrentRenders : Option Nat)
    (filePaths : List String) : List RenderResult :=
  if filePaths = [] then []
  else ((chunkArray filePaths (rendererLimit maxConcurrentRenders)).map
          (fun chunk => chunk.map f)).flatten

/-! ### Concurrency trace of the chunked scheduler

Within one chunk all tasks are started together and the scheduler waits
for all of them (`Promise.all`) before starting the next chunk, so an
execution of the batch is: for each chunk in order, the chunk's start
events in some order, then its finish events.  `batchTrace` is that
schedule; `activeCount` counts starts minus finishes, i.e. the number of
in-flight render executions after a prefix of the trace. -/

inductive SchedEvent where
  | start (task : String)
  | finish (task : String)
deriving DecidableEq, Repr

def chunkTrace (chunk : List String) : List SchedEvent :=
  chunk.map .start ++ chunk.map .finish

def batchTrace (chunks : List (List String)) : List SchedEvent :=
  (chunks.map chunkTrace).flatten

def countStarts (t : List SchedEvent) : Nat :=
  (t.filter (fun e => match e with | .start _ => true | .finish _ => false)).length

def countFinishes (t : List SchedEvent) : Nat :=
  (t.filter (fun e => match e with | .start _ => false | .finish _ => true)).length

def activeCount (t : List SchedEvent) : Nat := countStarts t - countFinishes t

/-! ## `renderWithConcurrency` (cli, new generation)

`maxConcurrentRenders === 'auto' || undefined ? Math.max(1, cpus().length)
: maxConcurrentRenders` — the limit handed to `p-limit`. -/

inductive ConcurrencySetting where
  | auto
  | fixed (n : Nat)
deriving DecidableEq, Repr

def resolveMaxConcurrent (cpuCount : Nat) : Option ConcurrencySetting → Nat
  | none => max 1 cpuCount
  | some .auto => max 1 cpuCount
  | some (.fixed n) => n

/-! ## CLI render action exit behaviour (`renderAction`, both CLI variants)

`handleConfigLoad` calls `process.exit(1)` when the configuration fails
to load.  Otherwise the render results are reported and, in non-watch
mode, the action calls `process.exit(0)` unconditionally; in watch mode
it does not exit (until SIGINT, which exits 0).  `none` means "no exit
yet" (watch mode running). -/

def countFailed (results : List RenderResult) : Nat :=
  (results.filter (fun r => !r.isSuccess)).length

def renderActionExitCode (configOk : Bool) (_results : List RenderResult)
    (watch : Bool) : Option Nat :=
  if !configOk then some 1
  else if watch then none
  else some 0

/-! ## Scheduler lemmas -/

theorem rendererLimit_pos (m : Option Nat) : 1 ≤ rendererLimit m := by
  cases m with
  | none => simp [rendererLimit]
  | some k =>
    simp only [rendererLimit]
    split
    · omega
    · omega

theorem chunkGo_flatten (size : Nat) (hsize : 1 ≤ size) :
    ∀ (fuel : Nat) (xs : List α), xs.length ≤ fuel →
      (chunkGo size fuel xs).flatten = xs := by
  intro fuel
  induction fuel with
  | zero =>
    intro xs hxs
    have : xs = [] := List.length_eq_zero.mp (Nat.le_zero.mp hxs)
    subst this
    rfl
  | succ fuel ih =>
    intro xs hxs
    cases xs with
    | nil => rfl
    | cons x l =>
      have hdrop : ((x :: l).drop size).length ≤ fuel := by
        rw [List.length_drop]
        have : (x :: l).length ≤ fuel + 1 := hxs
        simp only [List.length_cons] at this ⊢
        omega
      simp only [chunkGo, List.flatten_cons, ih _ hdrop, List.take_append_drop]

theorem chunkGo_mem_length (size : Nat) :
    ∀ (fuel : Nat) (xs : List α) (c : List α), c ∈ chunkGo size fuel xs →
      c.length ≤ size := by
  intro fuel
  induction fuel with
  | zero => intro xs c hc; simp [chunkGo] at hc
  | succ fuel ih =>
    intro xs c hc
    cases xs with
    | nil => simp [chunkGo] at hc
    | cons x l =>
      simp only [chunkGo, List.mem_cons] at hc
      rcases hc with h | h
      · subst h
        rw [List.length_take]
        exact min_le_left _ _
      · exact ih _ _ h

theorem countStarts_append (a b : List SchedEvent) :
    countStarts (a ++ b) = countStarts a + countStarts b := by
  simp [countStarts, List.filter_append]

theorem countFinishes_append (a b : List SchedEvent) :
    countFinishes (a ++ b) = countFinishes a + countFinishes b := by
  simp [countFinishes, List.filter_append]

theorem countStarts_map_start (c : List String) :
    countStarts (c.map SchedEvent.start) = c.length := by
  induction c with
  | nil => rfl
  | cons x l ih => simpa [countStarts, List.filter_cons] using ih

theorem countStarts_map_finish (c : List String) :
    countStarts (c.map SchedEvent.finish) = 0 := by
  induction c with
  | nil => rfl
  | cons x l ih => simp [countStarts, List.filter_cons] at ih ⊢

theorem countFinishes_map_start (c : List String) :
    countFinishes (c.map SchedEvent.start) = 0 := by
  induction c with
  | nil => rfl
  | cons x l ih => simp [countFinishes, List.filter_cons] at ih ⊢

theorem countFinishes_map_finish (c : List String) :
    countFinishes (c.map SchedEvent.finish) = c.length := by
  induction c with
  | nil => rfl
  | cons x l ih => simpa [countFinishes, List.filter_cons] using ih

theorem countStarts_chunkTrace (c : List String) :
    countStarts (chunkTrace c) = c.length := by
  rw [chunkTrace, countStarts_append, countStarts_map_start, countStarts_map_finish]
  omega

theorem countFinishes_chunkTrace (c : List String) :
    countFinishes (chunkTrace c) = c.length := by
  rw [chunkTrace, countFinishes_append, countFinishes_map_start, countFinishes_map_finish]
  omega

/-- Invariant of the chunked schedule: after any prefix, the number of
started tasks exceeds the number of finished ones by at most the chunk
size bound. -/
theorem batchTrace_starts_bound (n : Nat) :
    ∀ (chunks : List (List String)), (∀ c ∈ chunks, c.length ≤ n) →
      ∀ (pre post : List SchedEvent), pre ++ post = batchTrace chunks →
        countStarts pre ≤ countFinishes pre + n := by
  intro chunks
  induction chunks with
  | nil =>
    intro _ pre post hsplit
    have : pre = [] := by
      have h := congrArg List.length hsplit
      simp only [List.length_append, batchTrace, List.map_nil, List.flatten_nil,
        List.length_nil] at h
      exact List.length_eq_zero.mp (by omega)
    subst this
    simp [countStarts, countFinishes]
  | cons c rest ih =>
    intro hbound pre post hsplit
    have hc : c.length ≤ n := hbound c (List.mem_cons_self c rest)
    have hsplit' : pre ++ post = chunkTrace c ++ batchTrace rest := by
      simpa [batchTrace] using hsplit
    rcases List.append_eq_append_iff.mp hsplit' with ⟨a', ha1, _ha2⟩ | ⟨c', hc1, hc2⟩
    · -- pre is a prefix of the first chunk's trace
      have hstarts : countStarts (chunkTrace c) = countStarts pre + countStarts a' := by
        rw [ha1, countStarts_append]
      have : countStarts pre ≤ c.length := by
        rw [countStarts_chunkTrace] at hstarts
        omega
      omega
    · -- pre covers the first chunk's trace entirely
      have hih := ih (fun x hx => hbound x (List.mem_cons_of_mem _ hx)) c' post hc2.symm
      rw [hc1, countStarts_append, countFinishes_append,
        countStarts_chunkTrace, countFinishes_chunkTrace]
      omega

/-! ## Claim theorems: scheduler and executor -/

/-- C1.  At every instant of a batch run by `Renderer.renderFiles`
(modelled as any prefix of the chunked schedule trace), the number of
in-flight render executions never exceeds the configured concurrency
limit, for any batch size. -/
theorem scheduler_never_exceeds_concurrency_limit
    (files : List String) (m : Option Nat) (pre post : List SchedEvent)
    (hsplit : pre ++ post = batchTrace (chunkArray files (rendererLimit m))) :
    activeCount pre ≤ rendererLimit m := by
  have hbound : ∀ c ∈ chunkArray files (rendererLimit m), c.length ≤ rendererLimit m :=
    fun c hc => chunkGo_mem_length _ _ _ _ hc
  have h := batchTrace_starts_bound (rendererLimit m) _ hbound pre post hsplit
  simp only [activeCount]
  omega

/-- Witness for C1: a concrete batch of three tasks with limit 2, observed
after the first two starts. -/
theorem scheduler_never_exceeds_concurrency_limit_witness :
    activeCount [SchedEvent.start "a", SchedEvent.start "b"] ≤ rendererLimit (some 2) :=
  scheduler_never_exceeds_concurrency_limit ["a", "b", "c"] (some 2)
    [SchedEvent.start "a", SchedEvent.start "b"]
    [SchedEvent.finish "a", SchedEvent.finish "b",
     SchedEvent.start "c", SchedEvent.finish "c"]
    (by rfl)

/-- C2.  `Renderer.renderFiles` produces exactly one outcome per input
path — in fact the outcome list equals the input list mapped through the
per-task executor, so a failure for one path never removes or suppresses
any other path's outcome. -/
theorem renderFiles_one_outcome_per_input
    (f : String → RenderResult) (m : Option Nat) (files : List String) :
    renderFiles f m files = files.map f := by
  by_cases h : files = []
  · subst h; rfl
  · have hlim := rendererLimit_pos m
    have hjoin := chunkGo_flatten (rendererLimit m) hlim files.length files le_rfl
    simp only [renderFiles, if_neg h, chunkArray] at *
    rw [← List.map_flatten, hjoin]

/-- C3.  `Renderer.renderFile` settles every worker-process outcome to a
`RenderResult` value: a success carrying the output path exactly when
the process closed with exit code 0, and a failure value for a non-zero
exit, a signal kill, or a spawn error — never a thrown exception. -/
theorem renderFile_always_returns_result (outputDir filePath : String)
    (ev : ProcessEvent) :
    (rendererRenderFile outputDir filePath ev = RenderResult.ok (joinPath outputDir filePath)
        ∧ (match ev with | .close code _ => code = some 0 | .errorEvent _ => False))
    ∨ ((rendererRenderFile outputDir filePath ev).isSuccess = false
        ∧ (match ev with | .close code _ => code ≠ some 0 | .errorEvent _ => True)) := by
  cases ev with
  | close code sig =>
    by_cases h : code = some 0
    · left; subst h; exact ⟨by simp [rendererRenderFile], rfl⟩
    · right; exact ⟨by simp [rendererRenderFile, h, RenderResult.isSuccess], h⟩
  | errorEvent msg =>
    right; exact ⟨by simp [rendererRenderFile, RenderResult.isSuccess], trivial⟩

/-- A failed render result, as produced for a worker that exited
non-zero: used to exhibit the CLI exit-code behaviour. -/
def demoFailedResult : RenderResult :=
  RenderResult.fail "PROCESS_EXIT_ERROR" "Render process exited with code 1" (some "a.tsx")

/-- C4 counterexample: with the configuration loaded and a batch whose
single render failed, the non-watch render action still exits 0 — the
claim says it must exit 1 whenever at least one render failed. -/
theorem renderAction_exit_code_counterexample :
    countFailed [demoFailedResult] = 1
      ∧ renderActionExitCode true [demoFailedResult] false = some 0
      ∧ renderActionExitCode true [demoFailedResult] false ≠ some 1 := by
  refine ⟨rfl, rfl, ?_⟩
  simp [renderActionExitCode]

/-- C4 amended.  In non-watch mode the CLI render action exits 0
whenever the configuration loaded, regardless of how many renders
failed; it exits 1 exactly when the configuration could not be loaded. -/
theorem renderAction_exit_zero_when_config_ok
    (results : List RenderResult) (watch : Bool) :
    renderActionExitCode true results false = some 0
      ∧ renderActionExitCode false results watch = some 1 := by
  exact ⟨rfl, rfl⟩

/-! ## Dependency graph builder (`FileWatcher.buildDependencyGraph` /
`addDependencies`, watcher.ts)

`dependency-tree` returns a nested plain object: keys are resolved file
paths, values are the sub-objects of their own dependencies.  `DepTree`
is that shape.  The two JavaScript `Map<string, Set<string>>`s are
modelled as association lists of deduplicated lists, with `lookupSet`
playing `map.get(k) ?? ∅`.  `path.resolve` is abstracted as an arbitrary
resolver function `r`, applied exactly where the source applies it. -/

inductive DepTree where
  | node : List (String × DepTree) → DepTree

/-- The keys visited by `addDependencies`' `traverse`, in preorder, each
passed through `resolve`. -/
def depTreeKeys (r : String → String) : DepTree → List String
  | .node [] => []
  | .node ((k, t) :: rest) => r k :: (depTreeKeys r t ++ depTreeKeys r (.node rest))

abbrev EdgeMap := List (String × List String)

def lookupSet : EdgeMap → String → List String
  | [], _ => []
  | (k, vs) :: rest, q => if k = q then vs else lookupSet rest q

/-- `Set.add`. -/
def addToSet (s : List String) (v : String) : List String :=
  if v ∈ s then s else s ++ [v]

/-- `if (!map.has(k)) map.set(k, new Set()); map.get(k).add(v)`. -/
def addEdge : EdgeMap → String → String → EdgeMap
  | [], k, v => [(k, [v])]
  | (k', vs) :: rest, k, v =>
      if k' = k then (k', addToSet vs v) :: rest else (k', vs) :: addEdge rest k v

/-- `map.set(k, vs)`. -/
def setEntry : EdgeMap → String → List String → EdgeMap
  | [], k, vs => [(k, vs)]
  | (k', vs') :: rest, k, vs =>
      if k' = k then (k', vs) :: rest else (k', vs') :: setEntry rest k vs

structure DepGraphState where
  forwardMap : EdgeMap
  reverseMap : EdgeMap

/-- `FileWatcher.addDependencies(file, deps)`: traverse the dependency
tree; every visited key is added to this file's `dependencies` set and a
reverse edge `key → file` is recorded; finally
`dependencyGraph.set(file, dependencies)`. -/
def addDependencies (r : String → String) (st : DepGraphState) (file : String)
    (t : DepTree) : DepGraphState :=
  let keys := depTreeKeys r t
  { forwardMap := setEntry st.forwardMap file (keys.foldl addToSet [])
    reverseMap := keys.foldl (fun m k => addEdge m k file) st.reverseMap }

/-- `FileWatcher.buildDependencyGraph(entryPoints)`: both maps are
cleared, then each entry point's dependency tree is folded in; an entry
point whose `dependencyTree` call threw (`none`) is skipped without
aborting the others. -/
def buildDependencyGraph (r : String → String)
    (entries : List (String × Option DepTree)) : DepGraphState :=
  entries.foldl
    (fun st e => match e.2 with | none => st | some t => addDependencies r st e.1 t)
    ⟨[], []⟩

/-! ### Map lemmas -/

theorem lookupSet_setEntry (m : EdgeMap) (k : String) (vs : List String) (q : String) :
    lookupSet (setEntry m k vs) q = if k = q then vs else lookupSet m q := by
  induction m with
  | nil => simp [setEntry, lookupSet]
  | cons p rest ih =>
    obtain ⟨k', vs'⟩ := p
    by_cases h : k' = k
    · subst h
      simp only [setEntry, if_pos rfl, lookupSet]
      by_cases hq : k' = q <;> simp [hq]
    · simp only [setEntry, if_neg h, lookupSet]
      by_cases hq : k' = q
      · subst hq
        have : ¬ k = k' := fun hk => h hk.symm
        simp [this]
      · simp [hq, ih]

theorem mem_addToSet (s : List String) (v x : String) :
    x ∈ addToSet s v ↔ x ∈ s ∨ x = v := by
  by_cases h : v ∈ s
  · simp only [addToSet, if_pos h]
    constructor
    · exact fun hx => Or.inl hx
    · rintro (hx | rfl)
      · exact hx
      · exact h
  · simp [addToSet, if_neg h]

theorem mem_foldl_addToSet (keys : List String) :
    ∀ (acc : List String) (x : String),
      x ∈ keys.foldl addToSet acc ↔ x ∈ acc ∨ x ∈ keys := by
  induction keys with
  | nil => intro acc x; simp
  | cons k rest ih =>
    intro acc x
    simp only [List.foldl_cons, ih, mem_addToSet, List.mem_cons]
    tauto

theorem lookupSet_addEdge (m : EdgeMap) (k v q : String) :
    lookupSet (addEdge m k v) q =
      if k = q then addToSet (lookupSet m k) v else lookupSet m q := by
  induction m with
  | nil =>
    simp only [addEdge, lookupSet]
    by_cases h : k = q <;> simp [h, addToSet]
  | cons p rest ih =>
    obtain ⟨k', vs'⟩ := p
    by_cases h : k' = k
    · subst h
      simp only [addEdge, if_pos rfl, lookupSet]
      by_cases hq : k' = q <;> simp [hq]
    · simp only [addEdge, if_neg h, lookupSet]
      by_cases hq : k' = q
      · subst hq
        have : ¬ k = k' := fun hk => h hk.symm
        simp [this]
      · simp [hq, ih]

theorem mem_lookupSet_foldl_addEdge (file : String) (keys : List String) :
    ∀ (m0 : EdgeMap) (b a : String),
      a ∈ lookupSet (keys.foldl (fun m k => addEdge m k file) m0) b ↔
        a ∈ lookupSet m0 b ∨ (a = file ∧ b ∈ keys) := by
  induction keys with
  | nil => intro m0 b a; simp
  | cons k rest ih =>
    intro m0 b a
    simp only [List.foldl_cons, ih, lookupSet_addEdge, List.mem_cons]
    by_cases h : k = b
    · subst h
      rw [if_pos rfl]
      simp only [mem_addToSet]
      tauto
    · rw [if_neg h]
      constructor
      · rintro (hm | hkf)
        · exact Or.inl hm
        · exact Or.inr ⟨hkf.1, Or.inr hkf.2⟩
      · rintro (hm | ⟨ha, hb | hb⟩)
        · exact Or.inl hm
        · exact absurd hb.symm h
        · exact Or.inr ⟨ha, hb⟩

/-! ### The transpose invariant -/

/-- The invariant carried along the build: the two maps are transposes
of each other, and every file recorded as a dependent (forward key with
a member, or reverse member) is one of the already-processed entry
points. -/
def GraphInv (st : DepGraphState) (processed : List String) : Prop :=
  (∀ a b, b ∈ lookupSet st.forwardMap a ↔ a ∈ lookupSet st.reverseMap b)
    ∧ (∀ a b, b ∈ lookupSet st.forwardMap a → a ∈ processed)
    ∧ (∀ b a, a ∈ lookupSet st.reverseMap b → a ∈ processed)

theorem graphInv_mono {st : DepGraphState} {p p' : List String}
    (h : GraphInv st p) (hsub : ∀ x ∈ p, x ∈ p') : GraphInv st p' :=
  ⟨h.1, fun a b hb => hsub a (h.2.1 a b hb), fun b a ha => hsub a (h.2.2 b a ha)⟩

theorem graphInv_addDependencies (r : String → String) {st : DepGraphState}
    {processed : List String} (hinv : GraphInv st processed)
    (file : String) (hfresh : file ∉ processed) (t : DepTree) :
    GraphInv (addDependencies r st file t) (processed ++ [file]) := by
  obtain ⟨hiff, hfwd, hrev⟩ := hinv
  refine ⟨?_, ?_, ?_⟩
  · intro a b
    simp only [addDependencies, lookupSet_setEntry, mem_lookupSet_foldl_addEdge]
    by_cases ha : file = a
    · subst ha
      rw [if_pos rfl]
      simp only [mem_foldl_addToSet, List.not_mem_nil, false_or]
      constructor
      · intro hb; exact Or.inr ⟨by trivial, hb⟩
      · rintro (hmem | ⟨_, hb⟩)
        · exact absurd (hrev b file hmem) hfresh
        · exact hb
    · rw [if_neg ha]
      constructor
      · intro hb; exact Or.inl ((hiff a b).mp hb)
      · rintro (hmem | ⟨haf, _⟩)
        · exact (hiff a b).mpr hmem
        · exact absurd haf.symm ha
  · intro a b
    simp only [addDependencies, lookupSet_setEntry]
    by_cases ha : file = a
    · subst ha
      intro _
      simp
    · rw [if_neg ha]
      intro hb
      exact List.mem_append_left _ (hfwd a b hb)
  · intro b a
    simp only [addDependencies, mem_lookupSet_foldl_addEdge]
    rintro (hmem | ⟨rfl, _⟩)
    · exact List.mem_append_left _ (hrev b a hmem)
    · simp

theorem buildLoop_invariant (r : String → String) :
    ∀ (entries : List (String × Option DepTree)) (st : DepGraphState)
      (processed : List String),
      GraphInv st processed →
      (∀ e ∈ entries, e.1 ∉ processed) →
      (entries.map Prod.fst).Nodup →
      ∃ processed',
        GraphInv
          (entries.foldl
            (fun st e => match e.2 with | none => st | some t => addDependencies r st e.1 t)
            st)
          processed' := by
  intro entries
  induction entries with
  | nil => intro st processed hinv _ _; exact ⟨processed, hinv⟩
  | cons e rest ih =>
    intro st processed hinv hdisj hnodup
    obtain ⟨f, topt⟩ := e
    simp only [List.map_cons, List.nodup_cons] at hnodup
    cases topt with
    | none =>
      exact ih st processed hinv (fun x hx => hdisj x (List.mem_cons_of_mem _ hx)) hnodup.2
    | some t =>
      have hfresh : f ∉ processed := hdisj (f, some t) (List.mem_cons_self _ _)
      have hinv' := graphInv_addDependencies r hinv f hfresh t
      refine ih _ (processed ++ [f]) hinv' ?_ hnodup.2
      intro x hx
      simp only [List.mem_append, List.mem_singleton]
      rintro (hxp | rfl)
      · exact hdisj x (List.mem_cons_of_mem _ hx) hxp
      · exact hnodup.1 (List.mem_map_of_mem Prod.fst hx)

/-- C5.  After every dependency-graph build over distinct entry points,
the reverse map is the exact transpose of the forward map: `b` is in the
forward set of `a` iff `a` is in the reverse set of `b`. -/
theorem dependency_graph_reverse_is_transpose (r : String → String)
    (entries : List (String × Option DepTree))
    (hnodup : (entries.map Prod.fst).Nodup) (a b : String) :
    b ∈ lookupSet (buildDependencyGraph r entries).forwardMap a ↔
      a ∈ lookupSet (buildDependencyGraph r entries).reverseMap b := by
  have hinv0 : GraphInv ⟨[], []⟩ [] := by
    refine ⟨?_, ?_, ?_⟩ <;> intro x y <;> simp [lookupSet]
  obtain ⟨p', hp'⟩ :=
    buildLoop_invariant r entries ⟨[], []⟩ [] hinv0 (by simp) hnodup
  exact hp'.1 a b

/-- Witness for C5: one entry point `E` with dependency tree
`E → {d → {s}}`; the transpose equivalence holds at `(E, d)`. -/
theorem dependency_graph_reverse_is_transpose_witness :
    (([("E", some (DepTree.node [("d", DepTree.node [("s", DepTree.node [])])]))].map
        Prod.fst).Nodup)
    ∧ (("d" ∈ lookupSet
          (buildDependencyGraph (fun s => s)
            [("E", some (DepTree.node [("d", DepTree.node [("s", DepTree.node [])])]))]).forwardMap
          "E") ↔
        ("E" ∈ lookupSet
          (buildDependencyGraph (fun s => s)
            [("E", some (DepTree.node [("d", DepTree.node [("s", DepTree.node [])])]))]).reverseMap
          "d")) :=
  ⟨by simp,
   dependency_graph_reverse_is_transpose (fun s => s)
     [("E", some (DepTree.node [("d", DepTree.node [("s", DepTree.node [])])]))]
     (by simp) "E" "d"⟩

/-! ## Template merge (`mergeLiquidTemplate`, `mergeHTMLTemplate`,
`escapeRegex`)

The insertion-point search is the regex
`<div\s+id=["']ESCAPED_ID["'][^>]*>.*?</div>` with flags `is`:
case-insensitive, dot-matches-newline.  The embedding interprets that
fixed pattern directly over character lists: literal characters compare
case-insensitively (flag `i`), `\s+` consumes one or more whitespace
characters, `["']` accepts either quote (the opening and closing quote
need not agree), `[^>]*>` scans to the first `>`, and `.*?</div>`
requires a later `</div>`.  `\s` is modelled by its ASCII members. -/

def ciEq (a b : Char) : Bool := a.toLower == b.toLower

def isJsWs (c : Char) : Bool :=
  c = ' ' || c = '\t' || c = '\n' || c = '\r' || c = '\x0b' || c = '\x0c'

def isQuoteChar (c : Char) : Bool := c = '\x22' || c = Char.ofNat 39

/-- Consume `pat` case-insensitively from the head of the input,
returning the remainder. -/
def matchCI : List Char → List Char → Option (List Char)
  | [], rest => some rest
  | _ :: _, [] => none
  | p :: ps, c :: cs => if ciEq p c then matchCI ps cs else none

def skipJsWs : List Char → List Char
  | [] => []
  | c :: cs => if isJsWs c then skipJsWs cs else c :: cs

/-- `\s+` followed by a non-whitespace literal: one mandatory whitespace
character, then maximal munch. -/
def matchWsPlus : List Char → Option (List Char)
  | [] => none
  | c :: cs => if isJsWs c then some (skipJsWs cs) else none

def matchQuote : List Char → Option (List Char)
  | [] => none
  | c :: cs => if isQuoteChar c then some cs else none

/-- `[^>]*>`: scan to the first `>` and consume it. -/
def matchUpToGt : List Char → Option (List Char)
  | [] => none
  | c :: cs => if c = '>' then some cs else matchUpToGt cs

/-- `.*?</div>` under the `s` flag: the remainder after the earliest
`</div>` (case-insensitive). -/
def findCloseDiv : List Char → Option (List Char)
  | [] => none
  | c :: cs =>
      match matchCI ("</div>".data) (c :: cs) with
      | some r => some r
      | none => findCloseDiv cs

/-- Attempt the whole pattern at the head of `s`; on success return
`(openTagLength, matchLength)` — the length of the `<div ...>` open tag
(which the replacement keeps) and of the entire match. -/
def rootDivSpan (id : List Char) (s : List Char) : Option (Nat × Nat) :=
  match matchCI ("<div".data) s with
  | none => none
  | some r1 =>
    match matchWsPlus r1 with
    | none => none
    | some r2 =>
      match matchCI ("id=".data) r2 with
      | none => none
      | some r3 =>
        match matchQuote r3 with
        | none => none
        | some r4 =>
          match matchCI id r4 with
          | none => none
          | some r5 =>
            match matchQuote r5 with
            | none => none
            | some r6 =>
              match matchUpToGt r6 with
              | none => none
              | some r7 =>
                match findCloseDiv r7 with
                | none => none
                | some r8 => some (s.length - r7.length, s.length - r8.length)

def hasRootDivGo (id : List Char) : List Char → Bool
  | [] => false
  | c :: cs => (rootDivSpan id (c :: cs)).isSome || hasRootDivGo id cs

/-- `divRegex.test(template)`. -/
def hasRootDiv (template rootId : String) : Bool :=
  hasRootDivGo rootId.data template.data

/-- `template.replace(divRegex, m => openTag + styles + content +
'</div>')`: replace the leftmost match, keeping the matched open tag. -/
def replaceRootDivGo (id styles content : List Char) : List Char → List Char
  | [] => []
  | c :: cs =>
      match rootDivSpan id (c :: cs) with
      | some (openLen, matchLen) =>
          (c :: cs).take openLen ++ styles ++ content ++ ("</div>".data)
            ++ (c :: cs).drop matchLen
      | none => c :: replaceRootDivGo id styles content cs

def replaceRootDiv (template rootId styles content : String) : String :=
  ⟨replaceRootDivGo rootId.data styles.data content.data template.data⟩

/-- `MergeContext` (engines/liquid.ts): the mount info is represented by
the only field the merge reads, `rootElementId`. -/
structure MergeContext where
  template : String
  content : String
  styles : String
  rootElementId : String

/-- `mergeLiquidTemplate` (engines/liquid.ts): guard clauses on empty
inputs (JavaScript falsiness of the empty string), then the div
replacement, else a thrown error naming the missing id.  Thrown errors
are modelled as `Except.error`. -/
def mergeLiquidTemplate (ctx : MergeContext) : Except String String :=
  if ctx.template = "" then .error "Template content is required"
  else if ctx.content = "" then .error "Rendered content is required"
  else if ctx.rootElementId = "" then .error "Mount info with rootElementId is required"
  else if hasRootDiv ctx.template ctx.rootElementId then
    .ok (replaceRootDiv ctx.template ctx.rootElementId ctx.styles ctx.content)
  else
    .error ("No div with id=\"" ++ ctx.rootElementId ++ "\" found in template")

/-- `mergeHTMLTemplate` (engines/html.ts): identical algorithm, with its
own not-found message. -/
def mergeHTMLTemplate (ctx : MergeContext) : Except String String :=
  if ctx.template = "" then .error "Template content is required"
  else if ctx.content = "" then .error "Rendered content is required"
  else if ctx.rootElementId = "" then .error "Mount info with rootElementId is required"
  else if hasRootDiv ctx.template ctx.rootElementId then
    .ok (replaceRootDiv ctx.template ctx.rootElementId ctx.styles ctx.content)
  else
    .error ("Could not find <div id=\"" ++ ctx.rootElementId ++ "\"> in template")

/-- C8.  When the template contains no element matching the configured
`rootElementId` (and the guard clauses pass), the merge fails with an
error whose message embeds the missing id, for both the Liquid and the
HTML merger — it never returns a document with the content omitted. -/
theorem merge_fails_with_id_when_insertion_point_missing (ctx : MergeContext)
    (ht : ctx.template ≠ "") (hc : ctx.content ≠ "") (hr : ctx.rootElementId ≠ "")
    (hmiss : hasRootDiv ctx.template ctx.rootElementId = false) :
    (mergeLiquidTemplate ctx =
        .error ("No div with id=\"" ++ ctx.rootElementId ++ "\" found in template")
      ∧ ∀ s, mergeLiquidTemplate ctx ≠ .ok s)
    ∧ (mergeHTMLTemplate ctx =
        .error ("Could not find <div id=\"" ++ ctx.rootElementId ++ "\"> in template")
      ∧ ∀ s, mergeHTMLTemplate ctx ≠ .ok s)
    ∧ (∃ pre suf,
        ("No div with id=\"" ++ ctx.rootElementId ++ "\" found in template" : String) =
          pre ++ ctx.rootElementId ++ suf) := by
  have hL : mergeLiquidTemplate ctx =
      .error ("No div with id=\"" ++ ctx.rootElementId ++ "\" found in template") := by
    simp only [mergeLiquidTemplate, if_neg ht, if_neg hc, if_neg hr, hmiss,
      Bool.false_eq_true, if_false]
  have hH : mergeHTMLTemplate ctx =
      .error ("Could not find <div id=\"" ++ ctx.rootElementId ++ "\"> in template") := by
    simp only [mergeHTMLTemplate, if_neg ht, if_neg hc, if_neg hr, hmiss,
      Bool.false_eq_true, if_false]
  refine ⟨⟨hL, ?_⟩, ⟨hH, ?_⟩, ⟨"No div with id=\"", "\" found in template", rfl⟩⟩
  · intro s hs; rw [hL] at hs; exact Except.noConfusion hs
  · intro s hs; rw [hH] at hs; exact Except.noConfusion hs

/-- Witness for C8: a template with no div at all, id `app`. -/
theorem merge_fails_with_id_when_insertion_point_missing_witness :
    (mergeLiquidTemplate ⟨"<p>hello</p>", "CONTENT", "", "app"⟩ =
        .error ("No div with id=\"" ++ "app" ++ "\" found in template")
      ∧ ∀ s, mergeLiquidTemplate ⟨"<p>hello</p>", "CONTENT", "", "app"⟩ ≠ .ok s)
    ∧ (mergeHTMLTemplate ⟨"<p>hello</p>", "CONTENT", "", "app"⟩ =
        .error ("Could not find <div id=\"" ++ "app" ++ "\"> in template")
      ∧ ∀ s, mergeHTMLTemplate ⟨"<p>hello</p>", "CONTENT", "", "app"⟩ ≠ .ok s)
    ∧ (∃ pre suf,
        ("No div with id=\"" ++ "app" ++ "\" found in template" : String) =
          pre ++ "app" ++ suf) :=
  merge_fails_with_id_when_insertion_point_missing ⟨"<p>hello</p>", "CONTENT", "", "app"⟩
    (by decide) (by decide) (by decide) (by decide)

/-! ## `escapeRegex` (engines/base.ts, engines/liquid.ts, engines/html.ts)

`str.replace(/[.*+?^${}()|[\]\\]/g, '\\$&')` prefixes every regex
metacharacter with a backslash.  `regexFragmentLiterals` interprets a
pattern fragment as a plain sequence of literal characters: an escaped
character stands for itself, an unescaped metacharacter would act as an
operator (or make the pattern fail to parse) and yields `none`, as does
a dangling trailing backslash. -/

def isRegexMeta (c : Char) : Bool :=
  c = '.' || c = '*' || c = '+' || c = '?' || c = '^' || c = '$' ||
  c = '\x7b' || c = '\x7d' || c = '(' || c = ')' || c = '|' ||
  c = '[' || c = ']' || c = '\\'

def escapeRegexGo : List Char → List Char
  | [] => []
  | c :: cs => if isRegexMeta c then '\\' :: c :: escapeRegexGo cs else c :: escapeRegexGo cs

def escapeRegex (s : String) : String := ⟨escapeRegexGo s.data⟩

def regexFragmentLiterals : List Char → Option (List Char)
  | [] => some []
  | c :: cs =>
      if c = '\\' then
        match cs with
        | [] => none
        | d :: ds => (regexFragmentLiterals ds).map (d :: ·)
      else if isRegexMeta c then none
      else (regexFragmentLiterals cs).map (c :: ·)

theorem regexFragmentLiterals_escapeRegexGo (l : List Char) :
    regexFragmentLiterals (escapeRegexGo l) = some l := by
  induction l with
  | nil => rfl
  | cons c cs ih =>
    by_cases h : isRegexMeta c = true
    · rw [escapeRegexGo, if_pos h]
      simp [regexFragmentLiterals, ih]
    · have hb : c ≠ '\\' := by
        intro hc; subst hc; simp [isRegexMeta] at h
      rw [escapeRegexGo, if_neg h, regexFragmentLiterals.eq_def]
      simp [hb, h, ih]

/-- C10 counterexample: the pattern is compiled with the `i` flag, so
the search matches a template whose only id attribute is `A` against
`rootElementId = "a"` — the template does not even contain the character
`a`, refuting "matches only a div whose literal id attribute equals
rootElementId character for character". -/
theorem merge_match_case_insensitive_counterexample :
    hasRootDiv "<DIV ID=\"A\">X</DIV>" "a" = true
      ∧ ('a' ∉ ("<DIV ID=\"A\">X</DIV>" : String).data) := by
  constructor
  · decide
  · decide

/-- C10 amended.  `escapeRegex` escapes every regex metacharacter of the
id, so the insertion-point pattern always parses and every character of
`rootElementId` is matched as a literal (matching being case-insensitive
under the `i` flag, not character for character). -/
theorem escapeRegex_makes_id_literal (s : String) :
    regexFragmentLiterals (escapeRegex s).data = some s.data :=
  regexFragmentLiterals_escapeRegexGo s.data

/-! ## Worker pipeline (`worker.ts` `main`, merge-then-write ordering)

The worker runs one task: parse arguments and config, load the module,
extract the mount info, render, optionally format with Prettier, load
the template (falling back to the configured default template on
ENOENT), merge, and only then write the output file.  Every failure
calls `exitWithError` (exit code 1) before any later step runs.  The
pipeline is factored at the merge boundary: `workerPrep` is the sequence
of steps before the merge (returning the merge context when they all
succeed), `dispatchMerge` is the engine switch, and `workerMain` glues
them to the final write.  External effects observed by the worker are an
input record `WorkerIo`: `none` means the corresponding call threw (or,
for the template, ENOENT; a non-ENOENT read error likewise exits 1
before the merge).  `renderWorker` of the companion worker orders the
same steps identically. -/

structure MountInfo where
  rootElementId : String
deriving DecidableEq, Repr

structure WorkerConfig where
  templateEngine : String
  templateDir : Option String
  defaultTemplate : Option String
  templateExtension : Option String
  outputDir : String
  /-- `config.prettierConfig === false`. -/
  prettierOff : Bool

structure WorkerIo where
  /-- Module loaded and exported a valid `{node, rootElementId}` shape. -/
  moduleMountInfo : Option MountInfo
  /-- `renderToStaticMarkup` result `(html, styles)`; `none` = threw. -/
  rendered : Option (String × String)
  /-- Prettier's formatter; `none` = formatting threw. -/
  prettierFormat : Option (String → String)
  /-- Template file content; `none` = not found. -/
  templateContent : Option String
  /-- Default template file content; `none` = not found. -/
  defaultTemplateContent : Option String

/-- `mergePHPTemplate` / `PHPTemplateEngine.performMerge`
(engines/php.ts): the same guard clauses and div-replacement as the
Liquid merger, with the same not-found message. -/
def mergePHPTemplate (ctx : MergeContext) : Except String String :=
  if ctx.template = "" then .error "Template content is required"
  else if ctx.content = "" then .error "Rendered content is required"
  else if ctx.rootElementId = "" then .error "Mount info with rootElementId is required"
  else if hasRootDiv ctx.template ctx.rootElementId then
    .ok (replaceRootDiv ctx.template ctx.rootElementId ctx.styles ctx.content)
  else
    .error ("No div with id=\"" ++ ctx.rootElementId ++ "\" found in template")

/-- The `switch (config.templateEngine)` of the worker's merge step. -/
def dispatchMerge (engine : String) (ctx : MergeContext) : Except String String :=
  if engine = "liquid" then mergeLiquidTemplate ctx
  else if engine = "php" then mergePHPTemplate ctx
  else if engine = "html" then mergeHTMLTemplate ctx
  else .error ("Unknown template engine type: " ++ engine)

/-- Character-level string primitives: the paths handled by the tool are
treated as their character sequences (`String.startsWith`,
`String.prototype.substring` and `path` splitting operate on those). -/

def listStarts : List Char → List Char → Bool
  | _, [] => true
  | [], _ :: _ => false
  | c :: cs, p :: ps => if c = p then listStarts cs ps else false

/-- `s.startsWith(pre)`. -/
def strStarts (s pre : String) : Bool := listStarts s.data pre.data

/-- `s.substring(n)` (drop the first `n` characters). -/
def strDropChars (s : String) (n : Nat) : String := ⟨s.data.drop n⟩

/-- `s.length`. -/
def strLen (s : String) : Nat := s.data.length

def splitChar (sep : Char) : List Char → List (List Char)
  | [] => [[]]
  | c :: cs =>
      let r := splitChar sep cs
      if c = sep then [] :: r
      else
        match r with
        | [] => [[c]]
        | h :: t => (c :: h) :: t

def joinWithSlash : List (List Char) → List Char
  | [] => []
  | [x] => x
  | x :: y :: t => x ++ '/' :: joinWithSlash (y :: t)

/-- `path.parse(filePath)`: `(dir, base)`. -/
def pathParts (p : String) : String × String :=
  let parts := splitChar '/' p.data
  (⟨joinWithSlash parts.dropLast⟩, ⟨parts.getLastD []⟩)

def lastIdxOf (c : Char) : List Char → Option Nat
  | [] => none
  | x :: xs =>
      match lastIdxOf c xs with
      | some i => some (i + 1)
      | none => if x = c then some 0 else none

/-- `path.parse(...).name`: the base name with the extension after the
last dot removed, unless the dot is the leading character. -/
def stripExtension (base : String) : String :=
  match lastIdxOf '.' base.data with
  | some i => if 0 < i then ⟨base.data.take i⟩ else base
  | none => base

/-- `path.join` for the shapes the worker uses (directory + relative path). -/
def joinRel (dir file : String) : String :=
  if dir = "" then file else dir ++ "/" ++ file

/-- `join(dir, name + (config.templateExtension || '.html'))`. -/
def workerOutputRel (cfg : WorkerConfig) (filePath : String) : String :=
  let parts := pathParts filePath
  joinRel parts.1 (stripExtension parts.2 ++ (cfg.templateExtension.getD ".html"))

def workerOutputAbs (cfg : WorkerConfig) (filePath : String) : String :=
  joinRel cfg.outputDir (workerOutputRel cfg filePath)

/-- Everything `main` does before the merge step, in source order; `none`
as soon as a step exits with an error. -/
def workerPrep (cfg : WorkerConfig) (io : WorkerIo) : Option MergeContext :=
  match io.moduleMountInfo with
  | none => none
  | some mi =>
    match io.rendered with
    | none => none
    | some (html0, styles0) =>
      match (if cfg.prettierOff then some (html0, styles0)
             else match io.prettierFormat with
                  | none => none
                  | some fmt =>
                      some (fmt html0, if styles0 = "" then styles0 else fmt styles0)) with
      | none => none
      | some (html, styles) =>
        match cfg.templateDir with
        | none => none
        | some _tdir =>
          match io.templateContent with
          | some t => some ⟨t, html, styles, mi.rootElementId⟩
          | none =>
            match cfg.defaultTemplate with
            | none => none
            | some _ =>
              match io.defaultTemplateContent with
              | some t => some ⟨t, html, styles, mi.rootElementId⟩
              | none => none

structure WorkerResult where
  exitCode : Nat
  /-- The `(path, content)` pairs handed to `writeFile`. -/
  writes : List (String × String)
deriving Repr

/-- The worker `main`: prepare, merge, write, with `exitWithError`
(exit 1, nothing written) on any failure before the write. -/
def workerMain (cfg : WorkerConfig) (io : WorkerIo) (filePath : String) : WorkerResult :=
  match workerPrep cfg io with
  | none => ⟨1, []⟩
  | some ctx =>
    match dispatchMerge cfg.templateEngine ctx with
    | .error _ => ⟨1, []⟩
    | .ok finalHtml => ⟨0, [(workerOutputAbs cfg filePath, finalHtml)]⟩

/-- C9.  When the worker's template-merge step fails, the task's output
file is not written: the write step is only reached after a successful
merge, so on a merge error the worker exits 1 having written nothing. -/
theorem worker_merge_failure_prevents_write (cfg : WorkerConfig) (io : WorkerIo)
    (filePath : String) (ctx : MergeContext) (e : String)
    (hprep : workerPrep cfg io = some ctx)
    (hmerge : dispatchMerge cfg.templateEngine ctx = .error e) :
    (workerMain cfg io filePath).writes = []
      ∧ (workerMain cfg io filePath).exitCode = 1 := by
  simp [workerMain, hprep, hmerge]

/-- Witness for C9: a liquid task whose template lacks the target div;
the prepare steps succeed, the merge fails, nothing is written. -/
theorem worker_merge_failure_prevents_write_witness :
    (workerMain
        ⟨"liquid", some "templates", none, none, "dist", true⟩
        ⟨some ⟨"app"⟩, some ("<span>c</span>", ""), none, some "<p>no target</p>", none⟩
        "home.tsx").writes = []
      ∧ (workerMain
        ⟨"liquid", some "templates", none, none, "dist", true⟩
        ⟨some ⟨"app"⟩, some ("<span>c</span>", ""), none, some "<p>no target</p>", none⟩
        "home.tsx").exitCode = 1 :=
  worker_merge_failure_prevents_write
    ⟨"liquid", some "templates", none, none, "dist", true⟩
    ⟨some ⟨"app"⟩, some ("<span>c</span>", ""), none, some "<p>no target</p>", none⟩
    "home.tsx"
    ⟨"<p>no target</p>", "<span>c</span>", "", "app"⟩
    ("No div with id=\"" ++ "app" ++ "\" found in template")
    (by rfl) (by rfl)

/-! ## `FileWatcher.getAffectedEntryPoints` (watcher.ts)

A depth-first traversal of the reverse dependency map starting at the
changed file, with a shared `visited` set; every dependent whose path
lies under the entry-point directory is added to `affected`, and the
traversal recurses into every dependent.  The JavaScript recursion
terminates because `visited` grows; the embedding gives it fuel larger
than the number of nodes occurring in the reverse map, which is proved
never to run out. -/

structure DfsState where
  visited : List String
  affected : List String

/-- One reverse edge: `b` is recorded as a dependent of `a`. -/
def revStep (rev : EdgeMap) (a b : String) : Prop := b ∈ lookupSet rev a

/-- Every node occurring in the reverse map (keys and dependents). -/
def graphNodes (rev : EdgeMap) : List String :=
  rev.map Prod.fst ++ (rev.map Prod.snd).flatten

def dfsUniverse (rev : EdgeMap) (changed : String) : List String :=
  changed :: graphNodes rev

/-- `dependent.startsWith(entryPointDir + '/')`. -/
def isEntryPath (entryPointDir : String) (d : String) : Bool :=
  strStarts d (entryPointDir ++ "/")

/-- The recursive `findAffected` closure: skip visited files, mark the
file visited, then for each dependent add it to `affected` when it is an
entry point and recurse into it. -/
def findAffected (rev : EdgeMap) (isEntry : String → Bool) :
    Nat → String → DfsState → DfsState
  | 0, _, s => s
  | fuel + 1, file, s =>
    if file ∈ s.visited then s
    else
      (lookupSet rev file).foldl
        (fun acc d =>
          findAffected rev isEntry fuel d
            (if isEntry d = true ∧ d ∉ acc.affected then
              ⟨acc.visited, acc.affected ++ [d]⟩
            else acc))
        ⟨s.visited ++ [file], s.affected⟩

/-- `FileWatcher.getAffectedEntryPoints(changedFile)`. -/
def getAffectedEntryPoints (rev : EdgeMap) (entryPointDir changed : String) :
    List String :=
  (findAffected rev (isEntryPath entryPointDir)
    ((graphNodes rev).length + 2) changed ⟨[], []⟩).affected

/-- The visited file has been fully expanded in the final state: every
dependent is visited, and every entry-point dependent is affected. -/
def DfsExpanded (rev : EdgeMap) (isEntry : String → Bool) (s : DfsState)
    (v : String) : Prop :=
  ∀ d ∈ lookupSet rev v, d ∈ s.visited ∧ (isEntry d = true → d ∈ s.affected)

theorem dfsExpanded_mono {rev : EdgeMap} {isEntry : String → Bool}
    {s s' : DfsState} (hv : ∃ ev, s'.visited = s.visited ++ ev)
    (ha : ∃ ea, s'.affected = s.affected ++ ea) {v : String}
    (h : DfsExpanded rev isEntry s v) : DfsExpanded rev isEntry s' v := by
  obtain ⟨ev, hev⟩ := hv
  obtain ⟨ea, hea⟩ := ha
  intro d hd
  obtain ⟨h1, h2⟩ := h d hd
  exact ⟨by rw [hev]; exact List.mem_append_left _ h1,
         fun he => by rw [hea]; exact List.mem_append_left _ (h2 he)⟩

theorem mem_lookupSet_mem_graphNodes {rev : EdgeMap} {a b : String}
    (h : b ∈ lookupSet rev a) : b ∈ graphNodes rev := by
  induction rev with
  | nil => simp [lookupSet] at h
  | cons p rest ih =>
    obtain ⟨k, vs⟩ := p
    simp only [lookupSet] at h
    by_cases hk : k = a
    · rw [if_pos hk] at h
      simp only [graphNodes, List.map_cons, List.flatten_cons, List.mem_append,
        List.mem_cons]
      tauto
    · rw [if_neg hk] at h
      have := ih h
      simp only [graphNodes, List.map_cons, List.flatten_cons, List.mem_append,
        List.mem_cons] at this ⊢
      tauto

/-- The full specification of one `findAffected` call, provided the fuel
budget covers the unvisited part of the node universe: state growth is
by appending, the visited set stays duplicate-free inside the universe,
every visited node is reverse-reachable (reflexively) and every affected
node is an entry point reverse-reachable in at least one step, the file
itself ends up visited, and every newly visited node is fully expanded
in the final state. -/
theorem findAffected_spec (rev : EdgeMap) (isEntry : String → Bool) (changed : String) :
    ∀ (fuel : Nat) (file : String) (s : DfsState),
      s.visited.Nodup →
      (∀ x ∈ s.visited, x ∈ dfsUniverse rev changed) →
      (∀ x ∈ s.visited, Relation.ReflTransGen (revStep rev) changed x) →
      (∀ a ∈ s.affected, isEntry a = true ∧ Relation.TransGen (revStep rev) changed a) →
      (dfsUniverse rev changed).length + 1 ≤ fuel + s.visited.length →
      file ∈ dfsUniverse rev changed →
      Relation.ReflTransGen (revStep rev) changed file →
      (∃ ev, (findAffected rev isEntry fuel file s).visited = s.visited ++ ev)
      ∧ (∃ ea, (findAffected rev isEntry fuel file s).affected = s.affected ++ ea)
      ∧ (findAffected rev isEntry fuel file s).visited.Nodup
      ∧ (∀ x ∈ (findAffected rev isEntry fuel file s).visited, x ∈ dfsUniverse rev changed)
      ∧ (∀ x ∈ (findAffected rev isEntry fuel file s).visited,
          Relation.ReflTransGen (revStep rev) changed x)
      ∧ (∀ a ∈ (findAffected rev isEntry fuel file s).affected,
          isEntry a = true ∧ Relation.TransGen (revStep rev) changed a)
      ∧ file ∈ (findAffected rev isEntry fuel file s).visited
      ∧ (∀ v ∈ (findAffected rev isEntry fuel file s).visited,
          v ∈ s.visited ∨ DfsExpanded rev isEntry (findAffected rev isEntry fuel file s) v) := by
  intro fuel
  induction fuel with
  | zero =>
    intro file s hnd hU _hR _hA hbudget _hfile _hreach
    exfalso
    have hle : s.visited.length ≤ (dfsUniverse rev changed).length :=
      (List.subperm_of_subset hnd hU).length_le
    omega
  | succ fuel ih =>
    intro file s hnd hU hR hA hbudget hfile hreach
    by_cases hvis : file ∈ s.visited
    · rw [findAffected, if_pos hvis]
      refine ⟨⟨[], by simp⟩, ⟨[], by simp⟩, hnd, hU, hR, hA, hvis, fun v _ => Or.inl (by assumption)⟩
    · rw [findAffected, if_neg hvis]
      -- the state after marking `file` visited
      have hnd0 : (s.visited ++ [file]).Nodup := by
        simp [List.nodup_append, hnd, hvis]
      have hU0 : ∀ x ∈ s.visited ++ [file], x ∈ dfsUniverse rev changed := by
        intro x hx
        rcases List.mem_append.mp hx with hx | hx
        · exact hU x hx
        · rw [List.mem_singleton.mp hx]; exact hfile
      have hR0 : ∀ x ∈ s.visited ++ [file], Relation.ReflTransGen (revStep rev) changed x := by
        intro x hx
        rcases List.mem_append.mp hx with hx | hx
        · exact hR x hx
        · rw [List.mem_singleton.mp hx]; exact hreach
      -- the fold specification, by induction on the dependent list
      have foldSpec : ∀ (ds : List String) (t : DfsState),
          t.visited.Nodup →
          (∀ x ∈ t.visited, x ∈ dfsUniverse rev changed) →
          (∀ x ∈ t.visited, Relation.ReflTransGen (revStep rev) changed x) →
          (∀ a ∈ t.affected, isEntry a = true ∧ Relation.TransGen (revStep rev) changed a) →
          (dfsUniverse rev changed).length + 1 ≤ fuel + t.visited.length →
          (∀ d ∈ ds, d ∈ dfsUniverse rev changed) →
          (∀ d ∈ ds, Relation.TransGen (revStep rev) changed d) →
          (∃ ev, (ds.foldl
              (fun acc d =>
                findAffected rev isEntry fuel d
                  (if isEntry d = true ∧ d ∉ acc.affected then
                    ⟨acc.visited, acc.affected ++ [d]⟩
                  else acc)) t).visited = t.visited ++ ev)
          ∧ (∃ ea, (ds.foldl
              (fun acc d =>
                findAffected rev isEntry fuel d
                  (if isEntry d = true ∧ d ∉ acc.affected then
                    ⟨acc.visited, acc.affected ++ [d]⟩
                  else acc)) t).affected = t.affected ++ ea)
          ∧ (ds.foldl
              (fun acc d =>
                findAffected rev isEntry fuel d
                  (if isEntry d = true ∧ d ∉ acc.affected then
                    ⟨acc.visited, acc.affected ++ [d]⟩
                  else acc)) t).visited.Nodup
          ∧ (∀ x ∈ (ds.foldl
              (fun acc d =>
                findAffected rev isEntry fuel d
                  (if isEntry d = true ∧ d ∉ acc.affected then
                    ⟨acc.visited, acc.affected ++ [d]⟩
                  else acc)) t).visited, x ∈ dfsUniverse rev changed)
          ∧ (∀ x ∈ (ds.foldl
              (fun acc d =>
                findAffected rev isEntry fuel d
                  (if isEntry d = true ∧ d ∉ acc.affected then
                    ⟨acc.visited, acc.affected ++ [d]⟩
                  else acc)) t).visited, Relation.ReflTransGen (revStep rev) changed x)
          ∧ (∀ a ∈ (ds.foldl
              (fun acc d =>
                findAffected rev isEntry fuel d
                  (if isEntry d = true ∧ d ∉ acc.affected then
                    ⟨acc.visited, acc.affected ++ [d]⟩
                  else acc)) t).affected,
              isEntry a = true ∧ Relation.TransGen (revStep rev) changed a)
          ∧ (∀ v ∈ (ds.foldl
              (fun acc d =>
                findAffected rev isEntry fuel d
                  (if isEntry d = true ∧ d ∉ acc.affected then
                    ⟨acc.visited, acc.affected ++ [d]⟩
                  else acc)) t).visited,
              v ∈ t.visited ∨ DfsExpanded rev isEntry (ds.foldl
                (fun acc d =>
                  findAffected rev isEntry fuel d
                    (if isEntry d = true ∧ d ∉ acc.affected then
                      ⟨acc.visited, acc.affected ++ [d]⟩
                    else acc)) t) v)
          ∧ (∀ d ∈ ds, d ∈ (ds.foldl
              (fun acc d =>
                findAffected rev isEntry fuel d
                  (if isEntry d = true ∧ d ∉ acc.affected then
                    ⟨acc.visited, acc.affected ++ [d]⟩
                  else acc)) t).visited
              ∧ (isEntry d = true → d ∈ (ds.foldl
                (fun acc d =>
                  findAffected rev isEntry fuel d
                    (if isEntry d = true ∧ d ∉ acc.affected then
                      ⟨acc.visited, acc.affected ++ [d]⟩
                    else acc)) t).affected)) := by
        intro ds
        induction ds with
        | nil =>
          intro t hnd1 hU1 hR1 hA1 _hb _hdU _hdT
          refine ⟨⟨[], by simp⟩, ⟨[], by simp⟩, hnd1, hU1, hR1, hA1,
            fun v hv => Or.inl hv, by simp⟩
        | cons d ds ihds =>
          intro t hnd1 hU1 hR1 hA1 hb hdU hdT
          simp only [List.foldl_cons]
          -- the maybe-add step
          set t1 : DfsState :=
            (if isEntry d = true ∧ d ∉ t.affected then
              ⟨t.visited, t.affected ++ [d]⟩
            else t) with ht1
          have ht1v : t1.visited = t.visited := by
            rw [ht1]; split <;> rfl
          have ht1a : ∃ ea, t1.affected = t.affected ++ ea := by
            rw [ht1]; split
            · exact ⟨[d], rfl⟩
            · exact ⟨[], by simp⟩
          have ht1A : ∀ a ∈ t1.affected,
              isEntry a = true ∧ Relation.TransGen (revStep rev) changed a := by
            rw [ht1]; split
            · rename_i hcond
              intro a ha
              rcases List.mem_append.mp ha with ha | ha
              · exact hA1 a ha
              · rw [List.mem_singleton.mp ha]
                exact ⟨hcond.1, hdT d (List.mem_cons_self d ds)⟩
            · exact hA1
          have ht1entry : isEntry d = true → d ∈ t1.affected := by
            intro he
            rw [ht1]
            by_cases hmem : d ∈ t.affected
            · split
              · exact List.mem_append_left _ hmem
              · exact hmem
            · rw [if_pos ⟨he, hmem⟩]
              exact List.mem_append_right _ (by simp)
          -- the recursive call on d
          have hcall := ih d t1
            (ht1v ▸ hnd1) (by rw [ht1v]; exact hU1) (by rw [ht1v]; exact hR1)
            ht1A (by rw [ht1v]; exact hb)
            (hdU d (List.mem_cons_self d ds))
            ((hdT d (List.mem_cons_self d ds)).to_reflTransGen)
          obtain ⟨⟨ev1, hev1⟩, ⟨ea1, hea1⟩, hnd2, hU2, hR2, hA2, hdvis2, hexp2⟩ := hcall
          set t2 := findAffected rev isEntry fuel d t1 with ht2
          -- the remaining fold
          have hb2 : (dfsUniverse rev changed).length + 1 ≤ fuel + t2.visited.length := by
            rw [hev1, ht1v, List.length_append]
            omega
          have hrest := ihds t2 hnd2 hU2 hR2 hA2 hb2
            (fun x hx => hdU x (List.mem_cons_of_mem _ hx))
            (fun x hx => hdT x (List.mem_cons_of_mem _ hx))
          obtain ⟨⟨ev3, hev3⟩, ⟨ea3, hea3⟩, hnd3, hU3, hR3, hA3, hexp3, hds3⟩ := hrest
          obtain ⟨ea0, hea0⟩ := ht1a
          refine ⟨?_, ?_, hnd3, hU3, hR3, hA3, ?_, ?_⟩
          · exact ⟨ev1 ++ ev3, by rw [hev3, hev1, ht1v, List.append_assoc]⟩
          · exact ⟨ea0 ++ ea1 ++ ea3, by
              rw [hea3, hea1, hea0]; simp [List.append_assoc]⟩
          · -- expansion of newly visited nodes
            intro v hv
            rcases hexp3 v hv with hvt2 | hexp
            · rcases hexp2 v hvt2 with hvt1 | hexp
              · exact Or.inl (ht1v ▸ hvt1)
              · exact Or.inr (dfsExpanded_mono ⟨ev3, hev3⟩ ⟨ea3, hea3⟩ hexp)
            · exact Or.inr hexp
          · -- every dependent in d :: ds is visited, entries affected
            intro x hx
            rcases List.mem_cons.mp hx with rfl | hx
            · constructor
              · rw [hev3]; exact List.mem_append_left _ hdvis2
              · intro he
                rw [hea3, hea1]
                exact List.mem_append_left _ (List.mem_append_left _ (ht1entry he))
            · exact hds3 x hx
      -- apply the fold spec to the dependents of `file`
      have hbud0 : (dfsUniverse rev changed).length + 1 ≤
          fuel + (s.visited ++ [file]).length := by
        rw [List.length_append]
        simp only [List.length_singleton]
        omega
      have hds := foldSpec (lookupSet rev file) ⟨s.visited ++ [file], s.affected⟩
        hnd0 hU0 hR0 hA hbud0
        (fun d hd => List.mem_cons_of_mem _ (mem_lookupSet_mem_graphNodes hd))
        (fun d hd => Relation.TransGen.tail' hreach hd)
      obtain ⟨⟨ev, hev⟩, ⟨ea, hea⟩, hnd', hU', hR', hA', hexp', hds'⟩ := hds
      refine ⟨⟨[file] ++ ev, by rw [hev]; simp⟩, ⟨ea, hea⟩, hnd', hU', hR', hA', ?_, ?_⟩
      · rw [hev]
        exact List.mem_append_left _ (List.mem_append_right _ (by simp))
      · intro v hv
        rcases hexp' v hv with hvt | hexp
        · rcases List.mem_append.mp hvt with hvs | hvf
          · exact Or.inl hvs
          · -- v = file: its expansion is the final conjunct of the fold spec
            rw [List.mem_singleton.mp hvf]
            exact Or.inr (fun d hd => hds' d hd)
        · exact Or.inr hexp

/-- C6.  For a watched change to a plain dependency file, the affected
set computed by `getAffectedEntryPoints` is exactly the set of
entry-point paths reachable from the changed file by following reverse
dependency edges transitively: every entry point whose (transitive)
dependents chain reaches it is re-rendered, and no other entry point is. -/
theorem affected_equals_reverse_reachable_entry_points
    (rev : EdgeMap) (entryPointDir changed a : String) :
    a ∈ getAffectedEntryPoints rev entryPointDir changed ↔
      isEntryPath entryPointDir a = true
        ∧ Relation.TransGen (revStep rev) changed a := by
  have hspec := findAffected_spec rev (isEntryPath entryPointDir) changed
    ((graphNodes rev).length + 2) changed ⟨[], []⟩
    (by simp) (by simp) (by simp) (by simp)
    (by simp [dfsUniverse]) (by simp [dfsUniverse])
    Relation.ReflTransGen.refl
  obtain ⟨_, _, _, _, _, hA, hvis, hexp⟩ := hspec
  constructor
  · intro ha
    exact hA a ha
  · rintro ⟨hentry, hreach⟩
    -- every reverse-reachable node is visited; reachable entries are affected
    have key : ∀ x, Relation.TransGen (revStep rev) changed x →
        x ∈ (findAffected rev (isEntryPath entryPointDir)
            ((graphNodes rev).length + 2) changed ⟨[], []⟩).visited
          ∧ (isEntryPath entryPointDir x = true →
            x ∈ (findAffected rev (isEntryPath entryPointDir)
              ((graphNodes rev).length + 2) changed ⟨[], []⟩).affected) := by
      intro x hx
      induction hx with
      | single h =>
        rcases hexp changed hvis with habs | hexpc
        · simp at habs
        · exact hexpc _ h
      | tail hyx hstep ihx =>
        rcases hexp _ ihx.1 with habs | hexpy
        · simp at habs
        · exact hexpy _ hstep
    exact (key a hreach).2 hentry

/-! ## `FileWatcher.handleFileChange` (watcher.ts)

Each chokidar notification is classified in one step: entry-point file
(inside the entry-point directory with a supported extension) → a
one-element batch of its relative path; template file → the glob matches
of entry points sharing its base name (no batch when empty); otherwise a
dependency → the affected entry points from the reverse graph, mapped to
relative paths (no batch when empty); unsupported extensions and unknown
files → no batch.  `handleFileChange` keeps no state about previously
seen events: every notification is classified afresh and every
classified notification invokes the render callback with its own batch.
`path.resolve` is the identity on the already-absolute paths modelled
here, and the template-branch `glob` is an oracle parameter. -/

structure WatcherCfg where
  entryPointDir : String
  templateDir : Option String
  fileExtensions : Option (List String)

def defaultExtensions : List String := ["js", "jsx", "ts", "tsx"]

/-- `path.parse(filePath).ext.slice(1)`. -/
def extSlice1 (p : String) : String :=
  let base := (pathParts p).2
  match lastIdxOf '.' base.data with
  | some i => if 0 < i then ⟨base.data.drop (i + 1)⟩ else ""
  | none => ""

def inTemplateDir (cfg : WatcherCfg) (p : String) : Bool :=
  match cfg.templateDir with
  | some tdir => strStarts p (tdir ++ "/")
  | none => false

/-- The classification performed by `handleFileChange`: `some batch`
when the event results in a call to the render callback with `batch`,
`none` when the event is ignored. -/
def classifyChange (cfg : WatcherCfg) (rev : EdgeMap)
    (globMatches : String → List String) (filePath : String) : Option (List String) :=
  if strStarts filePath (cfg.entryPointDir ++ "/") then
    if extSlice1 filePath ∈ cfg.fileExtensions.getD defaultExtensions then
      some [strDropChars filePath (strLen cfg.entryPointDir + 1)]
    else none
  else if inTemplateDir cfg filePath then
    let ms := globMatches (stripExtension (pathParts filePath).2)
    if ms = [] then none else some ms
  else if extSlice1 filePath ∈ cfg.fileExtensions.getD defaultExtensions then
    let affected := getAffectedEntryPoints rev cfg.entryPointDir filePath
    if affected = [] then none
    else
      let rels := (affected.map (fun p =>
          if strStarts p (cfg.entryPointDir ++ "/") then
            strDropChars p (strLen cfg.entryPointDir + 1)
          else p)).filter (fun p => !(strStarts p "/"))
      if rels = [] then none else some rels
  else none

/-- The sequence of render batches triggered by a sequence of watcher
notifications: one batch per classified notification. -/
def watcherBatches (cfg : WatcherCfg) (rev : EdgeMap)
    (globMatches : String → List String) (events : List String) : List (List String) :=
  events.filterMap (classifyChange cfg rev globMatches)

/-- C7 counterexample: two rapid successive notifications for the same
entry-point path each trigger their own (identical) render batch — the
watcher performs no debouncing or coalescing, so the batch count is 2,
not 1. -/
theorem watcher_no_debounce_counterexample :
    watcherBatches ⟨"src/entry-points", none, none⟩ [] (fun _ => [])
        ["src/entry-points/home.tsx", "src/entry-points/home.tsx"]
      = [["home.tsx"], ["home.tsx"]]
    ∧ (watcherBatches ⟨"src/entry-points", none, none⟩ [] (fun _ => [])
        ["src/entry-points/home.tsx", "src/entry-points/home.tsx"]).length ≠ 1 := by
  constructor
  · rfl
  · decide

/-- C7 amended.  The watcher emits exactly one render batch per
classified notification: `k` successive notifications for the same path
produce `k` identical batches (no coalescing). -/
theorem watcher_one_batch_per_notification (cfg : WatcherCfg) (rev : EdgeMap)
    (globMatches : String → List String) (k : Nat) (e : String) (b : List String)
    (h : classifyChange cfg rev globMatches e = some b) :
    watcherBatches cfg rev globMatches (List.replicate k e) = List.replicate k b := by
  induction k with
  | zero => rfl
  | succ k ihk =>
    simp only [watcherBatches, List.replicate_succ, List.filterMap_cons, h]
    simpa [watcherBatches] using ihk

/-- Witness for C7's amended claim at two notifications of one entry
point. -/
theorem watcher_one_batch_per_notification_witness :
    watcherBatches ⟨"src/entry-points", none, none⟩ [] (fun _ => [])
        (List.replicate 2 "src/entry-points/home.tsx")
      = List.replicate 2 ["home.tsx"] :=
  watcher_one_batch_per_notification ⟨"src/entry-points", none, none⟩ [] (fun _ => [])
    2 "src/entry-points/home.tsx" ["home.tsx"] (by rfl)

end StaticRender
